import Mathlib

/-!
Verification of `tools/tex_to_html.py`, a line-oriented LaTeX-subset to HTML
transformer.  Text is modelled as `List Char` (`Str`); every Python string
operation used by the source is embedded as an executable Lean function over
`Str`.  ASCII semantics are used for `str.lower` / `str.strip`, matching the
CPython behaviour on the ASCII inputs the tool manipulates.

The committed source file is not syntactically valid Python (inconsistent
indentation from a duplicated draft of `flush_block_into_saying`); the
embedding follows the coherent fragments: the live flush helper is the
two-argument variant (the only one matching the call sites
`flush_block_into_saying(current_saying)`), a section marker unconditionally
creates a saying (the call sites reference `current_saying` before the
marker handler, which is only well defined under that reading), and
`start_new_book` resets `current_saying` to `None`.
-/

/-- Text is a list of characters, mirroring a Python `str`. -/
abbrev Str := List Char

/-- Shorthand turning a Lean string literal into `Str`. -/
def S (s : String) : Str := s.toList

/-- ASCII whitespace recognised by Python `str.strip` / `str.rstrip`. -/
def pyIsSpace (c : Char) : Bool :=
  c.toNat = 32 || c.toNat = 9 || c.toNat = 10 || c.toNat = 11 || c.toNat = 12 || c.toNat = 13

/-- Python `str.rstrip()`: drop trailing whitespace. -/
def pyRstrip : Str → Str
  | [] => []
  | c :: rest =>
    match pyRstrip rest with
    | [] => if pyIsSpace c then [] else [c]
    | r => c :: r

/-- Python `str.lstrip()`: drop leading whitespace. -/
def pyLstrip (l : Str) : Str := l.dropWhile pyIsSpace

/-- Python `str.strip()`. -/
def pyStrip (l : Str) : Str := pyLstrip (pyRstrip l)

/-- Python `str.startswith`: first argument is the pattern. -/
def strStartsWith : Str → Str → Bool
  | [], _ => true
  | _ :: _, [] => false
  | p :: ps, c :: cs => p == c && strStartsWith ps cs

/-- Python `needle in hay` substring test. -/
def strContains (needle : Str) : Str → Bool
  | [] => strStartsWith needle []
  | c :: rest => strStartsWith needle (c :: rest) || strContains needle rest

/-- The characters `\x7b`, `\x7d`, backslash, backtick, apostrophe, double quote. -/
def lbrace : Char := '\x7b'

def rbrace : Char := '\x7d'

def bslash : Char := '\\'

def btick : Char := '`'

def squote : Char := Char.ofNat 39

def dquote : Char := '"'

/-- Drop an exact prefix, returning the remainder (`None` when absent). -/
def dropPref : Str → Str → Option Str
  | [], l => some l
  | _ :: _, [] => none
  | p :: ps, c :: cs => if p == c then dropPref ps cs else none

/-- Scan up to the first `\x7d`: returns the captured group and the remainder
after the closing brace, as the regex fragment `([^\x7d]*)\x7d` does. -/
def takeToBrace : Str → Option (Str × Str)
  | [] => none
  | c :: rest =>
    if c == rbrace then some ([], rest)
    else
      match takeToBrace rest with
      | some (g, rem) => some (c :: g, rem)
      | none => none

/-- Anchored match of `pat([^\x7d]*)\x7d` at the start of the line, where `pat`
already contains the opening brace; mirrors `re.match` of the source regexes. -/
def matchCmdAt (pat : Str) (l : Str) : Option (Str × Str) :=
  match dropPref pat l with
  | none => none
  | some r => takeToBrace r

/-- `CHAPTER_RE.match(line)`: the captured title of `^\chapter\x7b([^\x7d]*)\x7d`. -/
def chapterMatch (l : Str) : Option Str :=
  (matchCmdAt (S "\\chapter\x7b") l).map (fun p => p.1)

/-- `SECTION_RE.match(line)`: the captured title of `^\section\x7b([^\x7d]*)\x7d`. -/
def sectionMatch (l : Str) : Option Str :=
  (matchCmdAt (S "\\section\x7b") l).map (fun p => p.1)

/-- One step of `re.findall(r"\\textsc\{([^}]*)\}", line)`: try the pattern at
the current position. -/
def matchTextsc (l : Str) : Option (Str × Str) :=
  matchCmdAt (S "\\textsc\x7b") l

/-- Fuelled left-to-right non-overlapping scan used by `findTextsc`; each step
consumes at least one character, so fuel `l.length` is always sufficient. -/
def findTextscF : Nat → Str → List Str
  | 0, _ => []
  | fuel + 1, l =>
    match matchTextsc l with
    | some (g, rem) => g :: findTextscF fuel rem
    | none =>
      match l with
      | [] => []
      | _ :: rest => findTextscF fuel rest

/-- `re.findall(r"\\textsc\{([^}]*)\}", line)`. -/
def findTextsc (l : Str) : List Str := findTextscF l.length l

/-- `re.search(r"\{([^}]*)\}", line)`: the group of the leftmost brace pair. -/
def firstBraceGroup : Str → Option Str
  | [] => none
  | c :: rest =>
    if c == lbrace then (takeToBrace rest).map (fun p => p.1)
    else firstBraceGroup rest

/-- Python `sep.join(parts)`. -/
def joinWith (sep : Str) : List Str → Str
  | [] => []
  | [x] => x
  | x :: y :: rest => x ++ sep ++ joinWith sep (y :: rest)

/-- Does the string end in a pair of backslashes?  (`re.sub(r"\\\\\s*$", ...)`
applied to an already right-stripped string matches exactly this.) -/
def endsWithBB : Str → Bool
  | [] => false
  | [_] => false
  | [a, b] => a == bslash && b == bslash
  | _ :: b :: rest => endsWithBB (b :: rest)

/-- Drop the last two characters. -/
def dropLastTwo : Str → Str
  | [] => []
  | [_] => []
  | [_, _] => []
  | a :: b :: rest => a :: dropLastTwo (b :: rest)

/-- `re.sub(r"\\\\\s*$", "", s)` for a right-stripped `s`: remove a trailing
explicit LaTeX line break `\\`. -/
def stripTrailBS (l : Str) : Str := if endsWithBB l then dropLastTwo l else l

/-- Python `s.replace(cc, q)` where the needle is the character `c` doubled
and the replacement the single character `q`; left-to-right, non-overlapping. -/
def replDouble (c q : Char) : Str → Str
  | [] => []
  | [x] => [x]
  | x :: y :: rest =>
    if x == c && y == c then q :: replDouble c q rest
    else x :: replDouble c q (y :: rest)

/-- The per-line cleanup of the flush helper: rstrip, strip a trailing `\\`,
normalise doubled backticks and doubled apostrophes to `"`. -/
def cleanLine (ln : Str) : Str :=
  replDouble squote dquote (replDouble btick dquote (stripTrailBS (pyRstrip ln)))

/-- The bare ornament directive line. -/
def ornLine : Str := S "\\ornament"

/-- `"<br>".join(buff).strip()`. -/
def joinPara (buff : List Str) : Str := pyStrip (joinWith (S "<br>") buff)

/-- The paragraph-splitting loop of `flush_block_into_saying`: blank lines end
the current paragraph, ornament-only cleaned lines are skipped, and a trailing
non-empty group is emitted at the end. -/
def flushGo : List Str → List Str → List Str
  | buff, [] => if buff.isEmpty then [] else [joinPara buff]
  | buff, ln :: rest =>
    if (pyRstrip ln).isEmpty then
      if buff.isEmpty then flushGo [] rest
      else joinPara buff :: flushGo [] rest
    else
      if pyStrip (cleanLine ln) == ornLine then flushGo buff rest
      else flushGo (buff ++ [cleanLine ln]) rest

/-- Convert the accumulated block lines into paragraph strings. -/
def flushParas (lines : List Str) : List Str := flushGo [] lines

/-- Is `c` in `[a-z0-9]`?  (The character class of the slug regexes.) -/
def isLowerAlnum (c : Char) : Bool :=
  (97 ≤ c.toNat && c.toNat ≤ 122) || (48 ≤ c.toNat && c.toNat ≤ 57)

/-- Python `str.lower()` on ASCII letters. -/
def pyLower (c : Char) : Char :=
  if 65 ≤ c.toNat && c.toNat ≤ 90 then Char.ofNat (c.toNat + 32) else c

/-- `re.sub(r"[^a-z0-9]+", "-", s)`: each maximal run of characters outside
`[a-z0-9]` becomes a single hyphen; the flag records an open run. -/
def subRuns : Bool → Str → Str
  | _, [] => []
  | inRun, c :: rest =>
    if isLowerAlnum c then c :: subRuns false rest
    else if inRun then subRuns true rest
    else '-' :: subRuns true rest

/-- `re.sub(r"-+", "-", s)`: collapse hyphen runs. -/
def collapseH : Bool → Str → Str
  | _, [] => []
  | inRun, c :: rest =>
    if c == '-' then
      if inRun then collapseH true rest else '-' :: collapseH true rest
    else c :: collapseH false rest

/-- Drop all trailing hyphens. -/
def dropTrailH : Str → Str
  | [] => []
  | c :: rest =>
    match dropTrailH rest with
    | [] => if c == '-' then [] else [c]
    | r => c :: r

/-- Python `s.strip("-")`. -/
def stripHyphens (l : Str) : Str := dropTrailH (l.dropWhile (fun c => c == '-'))

/-- `slugify` from the source: strip, lowercase, squash non-alphanumerics to
hyphens, collapse and trim hyphens, with fallback `"saying"`. -/
def slugify (t : Str) : Str :=
  let s1 := (pyStrip t).map pyLower
  let s2 := subRuns false s1
  let s3 := stripHyphens (collapseH false s2)
  if s3.isEmpty then S "saying" else s3

/-- Decimal rendering of the saying counter (`f"{num}"`). -/
def natStr (n : Nat) : Str := (Nat.repr n).toList

/-- A saying: global 1-based number, section title, paragraph strings. -/
structure Saying where
  num : Nat
  title : Str
  paragraphs : List Str
deriving DecidableEq

/-- A book: chapter title (possibly empty), never-populated preface field,
and its sayings. -/
structure Book where
  title : Str
  preface : List Str
  sayings : List Saying
deriving DecidableEq

/-- The parsed document: captured title/subtitle and the book list. -/
structure Document where
  title : Str
  subtitle : Str
  books : List Book
deriving DecidableEq

/-- The mutable variables of the parsing pass of `tex_to_html`.  Unlike the
Python code, the open saying is kept out of the open book's saying list and is
appended when closed, modelling the in-place dictionary mutation. -/
structure PState where
  title : Str
  subtitle : Str
  inTitlepage : Bool
  inFrontMatter : Bool
  sayNum : Nat
  books : List Book
  curBook : Option Book
  curSaying : Option Saying
  buffer : List Str
  halted : Bool
deriving DecidableEq

/-- Line patterns of the pass. -/
def tpBeginPat : Str := S "\\begin\x7btitlepage\x7d"

def tpEndPat : Str := S "\\end\x7btitlepage\x7d"

def mmPat : Str := S "\\mainmatter"

def bmPat : Str := S "% --- BACK MATTER ---"

/-- The back-matter marker line used in concrete inputs. -/
def bmLine : Str := S "% --- BACK MATTER ---"

/-- The title-page scan: a `\Huge`+`textsc` line sets the title to the joined
`\textsc` groups; a recognised subtitle phrase sets the subtitle to the first
brace group, stripped. -/
def titlepageScan (st : PState) (line : Str) : PState :=
  let st1 :=
    if strContains (S "\\Huge") line && strContains (S "textsc") line then
      match findTextsc line with
      | [] => st
      | ms => { st with title := joinWith (S " ") ms }
    else st
  if strContains (S "The 81 Sayings of") line || strContains (S "Book of Awakening") line
      || strContains (S "Suttas of the Living Buddha") line then
    match firstBraceGroup line with
    | some g => { st1 with subtitle := pyStrip g }
    | none => st1
  else st1

/-- `flush_block_into_saying(current_saying)`: with an empty buffer or no open
saying the buffer is merely discarded; otherwise the open saying's paragraph
list is replaced by the paragraphs of the buffer. -/
def flushInto (st : PState) : PState :=
  if st.buffer.isEmpty || st.curSaying.isNone then { st with buffer := [] }
  else
    match st.curSaying with
    | none => { st with buffer := [] }
    | some s => { st with curSaying := some { s with paragraphs := flushParas st.buffer }, buffer := [] }

/-- Append a closed saying into a book (the Python dict already being inside
the book's list). -/
def closeSaying (b : Book) : Option Saying → Book
  | none => b
  | some s => { b with sayings := b.sayings ++ [s] }

/-- Chapter handler: flush pending text, append the open book (carrying its
open saying), open a fresh titled book with no open saying. -/
def stepChapter (st0 : PState) (t : Str) : PState :=
  let st := flushInto st0
  let newBooks :=
    match st.curBook with
    | none => st.books
    | some b => st.books ++ [closeSaying b st.curSaying]
  { st with books := newBooks,
            curBook := some { title := t, preface := [], sayings := [] },
            curSaying := none }

/-- Section handler: flush pending text, bump the global counter, implicitly
open an untitled book if none is open, close the previous saying into the
book, and open the new saying with empty paragraphs. -/
def stepSection (st0 : PState) (t : Str) : PState :=
  let st := flushInto st0
  let n := st.sayNum + 1
  let cb :=
    match st.curBook with
    | none => { title := [], preface := [], sayings := [] : Book }
    | some b => closeSaying b st.curSaying
  { st with sayNum := n,
            curBook := some cb,
            curSaying := some { num := n, title := t, paragraphs := [] } }

/-- One iteration of the main loop of `tex_to_html`, in source order:
title-page delimiters, title-page scan, main-matter marker, front-matter skip,
chapter, section, ornament, back-matter break (modelled as a sticky `halted`
flag), then accumulation when a book is open. -/
def step (st : PState) (line : Str) : PState :=
  if st.halted then st
  else if strStartsWith tpBeginPat (pyStrip line) then { st with inTitlepage := true }
  else if strStartsWith tpEndPat (pyStrip line) then { st with inTitlepage := false }
  else if st.inTitlepage then titlepageScan st line
  else if strStartsWith mmPat (pyStrip line) then { st with inFrontMatter := false }
  else if st.inFrontMatter then st
  else
    match chapterMatch line with
    | some t => stepChapter st (pyStrip t)
    | none =>
      match sectionMatch line with
      | some t => stepSection st (pyStrip t)
      | none =>
        if pyStrip line == ornLine then st
        else if strStartsWith bmPat (pyStrip line) then { st with halted := true }
        else
          match st.curBook with
          | some _ => { st with buffer := st.buffer ++ [line] }
          | none => st

/-- The state at the top of the pass. -/
def initState : PState :=
  { title := [], subtitle := [], inTitlepage := false, inFrontMatter := true,
    sayNum := 0, books := [], curBook := none, curSaying := none,
    buffer := [], halted := false }

/-- Run the loop over the input lines. -/
def processLines (st : PState) (lines : List Str) : PState := lines.foldl step st

/-- The epilogue after the loop: final flush, then append the open book. -/
def finalize (st : PState) : PState :=
  let st1 := flushInto st
  match st1.curBook with
  | none => st1
  | some b =>
    { st1 with books := st1.books ++ [closeSaying b st1.curSaying],
               curBook := none, curSaying := none }

/-- The document assembled by a finished pass. -/
def docOf (st : PState) : Document :=
  let f := finalize st
  { title := f.title, subtitle := f.subtitle, books := f.books }

/-- The whole parsing phase of `tex_to_html` on a list of input lines. -/
def texParse (lines : List Str) : Document := docOf (processLines initState lines)

/-- The `<h3>` heading emitted for a saying. -/
def h3Line (s : Saying) : Str :=
  S "<h3 id=\"s" ++ natStr s.num ++ S "-" ++ slugify s.title ++ S "\">"
    ++ natStr s.num ++ S ". " ++ s.title ++ S "</h3>"

/-- The lines emitted for one saying: its heading then one `<p>` per paragraph. -/
def renderSaying (s : Saying) : List Str :=
  h3Line s :: s.paragraphs.map (fun p => S "<p>" ++ p ++ S "</p>")

/-- The lines emitted for one book: optional `<h2>`, its sayings, an `<hr>`. -/
def renderBook (b : Book) : List Str :=
  (if b.title.isEmpty then [] else [S "<h2>" ++ b.title ++ S "</h2>"])
    ++ (b.sayings.map renderSaying).flatten ++ [S "<hr>"]

/-- The embedded stylesheet line. -/
def styleLine : Str :=
  S "  <style>body\x7bfont-family:serif;max-width:40rem;margin:2rem auto;padding:0 1rem;line-height:1.5;\x7dh1,h2,h3\x7btext-align:center;\x7dh3\x7btext-align:left;margin-top:2rem;\x7dp\x7bmargin:0.4rem 0;\x7dhr\x7bmargin:2rem 0;border:0;border-top:1px solid #ccc;\x7d</style>"

/-- The HTML document lines built by `tex_to_html` from the parsed document and
the source file's stem. -/
def renderHtml (stem : Str) (d : Document) : List Str :=
  [S "<!DOCTYPE html>", S "<html lang=\"en\">", S "<head>",
   S "  <meta charset=\"utf-8\">",
   S "  <title>" ++ stem ++ S "</title>",
   S "  <meta name=\"viewport\" content=\"width=device-width, initial-scale=1\">",
   styleLine, S "</head>", S "<body>"]
    ++ (if d.title.isEmpty then [S "<h1>" ++ stem ++ S "</h1>"]
        else [S "<h1>" ++ d.title ++ S "</h1>"])
    ++ (if d.subtitle.isEmpty then [] else [S "<h2>" ++ d.subtitle ++ S "</h2>"])
    ++ (d.books.map renderBook).flatten
    ++ [S "</body>", S "</html>"]

/-- `Path.name`: the component after the last slash. -/
def baseName (p : Str) : Str := (p.splitOn '/').getLastD []

/-- `Path.stem`: the name without its last dot suffix; a dot at position 0
yields no suffix.  Splits at the last dot. -/
def lastDotSplit : Str → Option (Str × Str)
  | [] => none
  | c :: rest =>
    match lastDotSplit rest with
    | some (b, a) => some (c :: b, a)
    | none => if c == '.' then some ([], rest) else none

/-- The stem of a path component. -/
def stemOf (nm : Str) : Str :=
  match lastDotSplit nm with
  | some (b, _) => if b.isEmpty then nm else b
  | none => nm

/-- The directory part of a path, up to and including the last slash. -/
def dirPart (p : Str) : Str := p.take (p.length - (baseName p).length)

/-- The sibling `.html` path derived by `main` for an input path. -/
def htmlPath (p : Str) : Str := dirPart p ++ stemOf (baseName p) ++ S ".html"

/-- The observable outcome of a batch-driver invocation. -/
structure RunResult where
  exitCode : Nat
  errLines : List Str
  outLines : List Str
  writes : List Str
deriving DecidableEq

/-- The per-file loop of `main`: missing paths warn and are skipped, existing
paths are transformed (their HTML path recorded) and announced on stdout. -/
def procFiles (fsExist : List Str) : List Str → List Str × List Str × List Str
  | [] => ([], [], [])
  | f :: rest =>
    let r := procFiles fsExist rest
    if f ∈ fsExist then
      (r.1, (S "Wrote " ++ htmlPath f) :: r.2.1, htmlPath f :: r.2.2)
    else
      ((S "Skipping missing " ++ f) :: r.1, r.2.1, r.2.2)

/-- `main(argv)`: with no arguments, process the sorted `*.tex` files of the
working directory, failing with exit code 1 when none exist; otherwise
process the argument paths.  `cwdTex` is the sorted glob result and
`fsExist` the set of existing paths. -/
def mainDrv (argv cwdTex fsExist : List Str) : RunResult :=
  if argv.isEmpty then
    if cwdTex.isEmpty then
      { exitCode := 1, errLines := [S "No .tex files found."], outLines := [], writes := [] }
    else
      let r := procFiles fsExist cwdTex
      { exitCode := 0, errLines := r.1, outLines := r.2.1, writes := r.2.2 }
  else
    let r := procFiles fsExist argv
    { exitCode := 0, errLines := r.1, outLines := r.2.1, writes := r.2.2 }

/-- Saying numbers of a book in order. -/
def bookNums (b : Book) : List Nat := b.sayings.map (fun s => s.num)

/-- Saying numbers of a document in document order. -/
def docNums (d : Document) : List Nat := (d.books.map bookNums).flatten

/-- Numbers contributed by an optional open saying. -/
def optSayNums : Option Saying → List Nat
  | none => []
  | some s => [s.num]

/-- Numbers contributed by an optional open book. -/
def optBookNums : Option Book → List Nat
  | none => []
  | some b => bookNums b

/-- Saying numbers visible in a mid-pass state, in document order. -/
def stNums (st : PState) : List Nat :=
  (st.books.map bookNums).flatten ++ optBookNums st.curBook ++ optSayNums st.curSaying

/-- All paragraphs of a document. -/
def allParas (d : Document) : List Str :=
  ((d.books.map (fun b => b.sayings)).flatten.map (fun s => s.paragraphs)).flatten

/-- A line whose cleanup cannot fabricate an empty paragraph: it is either
blank (after rstrip) or still has visible content after the trailing `\\`
strip and quote normalisation. -/
def goodLine (l : Str) : Bool :=
  (pyRstrip l).isEmpty || !(pyStrip (cleanLine l)).isEmpty

/-- A line the main loop classifies as plain content: it matches none of the
structural patterns. -/
def isPlainLine (l : Str) : Bool :=
  !(strStartsWith tpBeginPat (pyStrip l)) && !(strStartsWith tpEndPat (pyStrip l))
    && !(strStartsWith mmPat (pyStrip l)) && (chapterMatch l).isNone
    && (sectionMatch l).isNone && !(pyStrip l == ornLine)
    && !(strStartsWith bmPat (pyStrip l))

/-- Slug characters: `[a-z0-9-]`. -/
def allSlugChar (l : Str) : Bool := l.all (fun c => isLowerAlnum c || c == '-')

/-- No two adjacent hyphens. -/
def noHH : Str → Bool
  | [] => true
  | [_] => true
  | c :: d :: rest => !(c == '-' && d == '-') && noHH (d :: rest)

/-- No leading hyphen. -/
def noLeadH : Str → Bool
  | [] => true
  | c :: _ => !(c == '-')

/-- No trailing hyphen. -/
def noTrailH : Str → Bool
  | [] => true
  | [c] => !(c == '-')
  | _ :: c :: rest => noTrailH (c :: rest)

/-- A string already in slug normal form. -/
def isCleanSlug (l : Str) : Bool := allSlugChar l && noHH l && noLeadH l && noTrailH l

/-- The worked example of the spec: chapter, section, two paragraph lines. -/
def c1Input : List Str :=
  [S "\\mainmatter", S "\\chapter\x7bBook One\x7d", S "\\section\x7bOn Silence\x7d",
   S "Be still.", S "", S "Listen well."]

/-- A back-matter marker in front matter: the pass has not reached main matter,
so the marker line is skipped rather than terminating the pass. -/
def c3Input : List Str :=
  [bmLine, S "\\mainmatter", S "\\chapter\x7bB\x7d", S "\\section\x7bS\x7d", S "hello"]

/-- A main-matter body line consisting solely of an explicit line break. -/
def c4Input : List Str :=
  [S "\\mainmatter", S "\\chapter\x7bB\x7d", S "\\section\x7bT\x7d", S "\\\\"]

/-- A title page that captures the document title `Foo`. -/
def c6Input : List Str :=
  [S "\\begin\x7btitlepage\x7d", S "\\Huge \\textsc\x7bFoo\x7d", S "\\end\x7btitlepage\x7d"]

/-- No paragraph of the saying is empty. -/
def sayOK (s : Saying) : Prop := ([] : Str) ∉ s.paragraphs

/-- No paragraph of any saying of the book is empty. -/
def bookOK (b : Book) : Prop := ∀ s ∈ b.sayings, sayOK s

/-- Mid-pass no-empty-paragraph invariant: all closed and open paragraphs are
non-empty and every buffered line is benign. -/
def stInv4 (st : PState) : Prop :=
  (∀ b ∈ st.books, bookOK b) ∧ (∀ b, st.curBook = some b → bookOK b) ∧
    (∀ s, st.curSaying = some s → sayOK s) ∧ (∀ l ∈ st.buffer, goodLine l = true)

/-- A mid-pass state in main matter with no open book or saying. -/
def c5St : PState :=
  { title := [], subtitle := [], inTitlepage := false, inFrontMatter := false,
    sayNum := 0, books := [], curBook := none, curSaying := none,
    buffer := [], halted := false }

/-- Argument list for exercising the batch driver: one existing and one
missing path. -/
def c9Argv : List Str := [S "a.tex", S "dir/missing.tex"]

/-- The existing files of the batch-driver scenario. -/
def c9Exist : List Str := [S "a.tex"]

/-- Claim C1: the input `\mainmatter`, `\chapter{Book One}`, `\section{On
Silence}`, `Be still.`, blank, `Listen well.` parses to exactly one Book
titled `Book One` holding exactly Saying 1 `On Silence` with paragraphs
`Be still.` and `Listen well.`. -/
theorem claim_C1 :
    texParse c1Input =
      { title := [], subtitle := [],
        books := [{ title := S "Book One", preface := [],
                    sayings := [{ num := 1, title := S "On Silence",
                                  paragraphs := [S "Be still.", S "Listen well."] }] }] } := by
  decide

/-- Claim C4, counterexample: a main-matter body line consisting solely of
`\\` is non-blank, is accumulated, and its cleanup strips the trailing
line-break pair leaving the empty string, so the final flush emits an empty
paragraph: the resulting document contains an empty paragraph. -/
theorem claim_C4_counterexample : ([] : Str) ∈ allParas (texParse c4Input) := by
  decide

/-- Claim C6, amended: the `<title>` element of the head (line index 4 of the
emitted document) is always the source file's stem, whether or not a document
title was captured. -/
theorem claim_C6_amended (stem : Str) (d : Document) :
    (renderHtml stem d)[4]? = some (S "  <title>" ++ stem ++ S "</title>") := rfl

/-- Claim C6, counterexample: on an input whose title page captures the
document title `Foo`, the `<title>` element still holds the stem `doc`, not
`Foo`, contradicting the claimed fallback behaviour. -/
theorem claim_C6_counterexample :
    (texParse c6Input).title = S "Foo" ∧
      (renderHtml (S "doc") (texParse c6Input))[4]? = some (S "  <title>doc</title>") ∧
      S "  <title>doc</title>" ≠ S "  <title>Foo</title>" := by
  decide

/-- Claim C3, counterexample: an input beginning with the back-matter marker
line does not terminate at it — the marker is skipped while still in front
matter, and later lines create a Book and a Saying whose paragraphs contain a
line occurring after the marker. -/
theorem claim_C3_counterexample :
    c3Input.head? = some bmLine ∧
      (texParse c3Input).books =
        [{ title := S "B", preface := [],
           sayings := [{ num := 1, title := S "S", paragraphs := [S "hello"] }] }] := by
  decide

/-- The per-file loop splits the inputs into warnings for missing paths and
outputs/writes for existing ones, in order. -/
theorem procFiles_spec (ex : List Str) (fs : List Str) :
    procFiles ex fs =
      ((fs.filter (fun f => !decide (f ∈ ex))).map (fun f => S "Skipping missing " ++ f),
       (fs.filter (fun f => decide (f ∈ ex))).map (fun f => S "Wrote " ++ htmlPath f),
       (fs.filter (fun f => decide (f ∈ ex))).map htmlPath) := by
  induction fs with
  | nil => rfl
  | cons f rest ih =>
    by_cases h : f ∈ ex <;> simp [procFiles, h, ih, List.filter_cons]

/-- Claim C9: with explicit path arguments, every existing path is transformed
and its output path printed, every missing path only warns, and the exit code
is 0; the exit code is nonzero exactly when no arguments were given and no
`.tex` files were found in the working directory. -/
theorem claim_C9 (argv cwdTex fsExist : List Str) :
    (argv ≠ [] →
      (mainDrv argv cwdTex fsExist).exitCode = 0 ∧
      (mainDrv argv cwdTex fsExist).errLines =
        (argv.filter (fun f => !decide (f ∈ fsExist))).map (fun f => S "Skipping missing " ++ f) ∧
      (mainDrv argv cwdTex fsExist).outLines =
        (argv.filter (fun f => decide (f ∈ fsExist))).map (fun f => S "Wrote " ++ htmlPath f) ∧
      (mainDrv argv cwdTex fsExist).writes =
        (argv.filter (fun f => decide (f ∈ fsExist))).map htmlPath) ∧
    ((mainDrv argv cwdTex fsExist).exitCode ≠ 0 ↔ argv = [] ∧ cwdTex = []) := by
  have hp := procFiles_spec fsExist
  cases argv with
  | nil =>
    cases cwdTex with
    | nil => simp [mainDrv]
    | cons c cs => simp [mainDrv]
  | cons a as =>
    refine ⟨fun _ => ?_, ?_⟩
    · simp [mainDrv, hp]
    · simp [mainDrv]

/-- Claim C9, witness: invoking the driver on one existing and one missing
path yields exit code 0, a single skip warning, and a single output line. -/
theorem claim_C9_witness :
    (mainDrv c9Argv [] c9Exist).exitCode = 0 ∧
      (mainDrv c9Argv [] c9Exist).errLines = [S "Skipping missing dir/missing.tex"] ∧
      (mainDrv c9Argv [] c9Exist).outLines = [S "Wrote a.html"] ∧
      (mainDrv c9Argv [] c9Exist).writes = [S "a.html"] := by
  have h := (claim_C9 c9Argv [] c9Exist).1 (by decide)
  refine ⟨h.1, ?_, ?_, ?_⟩
  · rw [h.2.1]; decide
  · rw [h.2.2.1]; decide
  · rw [h.2.2.2]; decide

/-- A halted pass ignores every further line. -/
theorem step_halted (st : PState) (l : Str) (h : st.halted = true) : step st l = st := by
  simp [step, h]

/-- A halted pass ignores every further suffix of the input. -/
theorem foldl_step_halted (ls : List Str) (st : PState) (h : st.halted = true) :
    List.foldl step st ls = st := by
  induction ls with
  | nil => rfl
  | cons l rest ih => rw [List.foldl_cons, step_halted st l h, ih]

/-- Flushing never touches the counter, books, open book, captured titles,
zone flags or halt flag, and always empties the buffer. -/
theorem flushInto_fields (st : PState) :
    (flushInto st).sayNum = st.sayNum ∧ (flushInto st).books = st.books ∧
      (flushInto st).curBook = st.curBook ∧ (flushInto st).buffer = [] ∧
      (flushInto st).title = st.title ∧ (flushInto st).subtitle = st.subtitle ∧
      (flushInto st).inTitlepage = st.inTitlepage ∧
      (flushInto st).inFrontMatter = st.inFrontMatter ∧
      (flushInto st).halted = st.halted := by
  unfold flushInto
  split
  · simp
  · split <;> simp

/-- With no open saying, flushing merely discards the buffer. -/
theorem flushInto_none (st : PState) (h : st.curSaying = none) :
    flushInto st = { st with buffer := [] } := by
  simp [flushInto, h]

/-- The back-matter marker line halts a non-halted main-matter pass. -/
theorem step_bmLine (st : PState) (h1 : st.halted = false) (h2 : st.inTitlepage = false)
    (h3 : st.inFrontMatter = false) : step st bmLine = { st with halted := true } := by
  have e1 : strStartsWith tpBeginPat (pyStrip bmLine) = false := by decide
  have e2 : strStartsWith tpEndPat (pyStrip bmLine) = false := by decide
  have e3 : strStartsWith mmPat (pyStrip bmLine) = false := by decide
  have e4 : chapterMatch bmLine = none := by decide
  have e5 : sectionMatch bmLine = none := by decide
  have e6 : (pyStrip bmLine == ornLine) = false := by decide
  have e7 : strStartsWith bmPat (pyStrip bmLine) = true := by decide
  simp [step, h1, h2, h3, e1, e2, e3, e4, e5, e6, e7]

/-- Claim C3, amended: once the back-matter marker is met while the pass is in
main matter (outside a title page), everything after it is ignored: the parse
of `pre ++ marker :: post` equals the parse of `pre ++ [marker]`. -/
theorem claim_C3_amended (pre post : List Str)
    (h2 : (processLines initState pre).inTitlepage = false)
    (h3 : (processLines initState pre).inFrontMatter = false) :
    texParse (pre ++ bmLine :: post) = texParse (pre ++ [bmLine]) := by
  unfold texParse
  congr 1
  unfold processLines at h2 h3 ⊢
  rw [List.foldl_append, List.foldl_append]
  by_cases hh : (List.foldl step initState pre).halted
  · rw [List.foldl_cons, step_halted _ _ hh, foldl_step_halted _ _ hh,
      List.foldl_cons, step_halted _ _ hh, List.foldl_nil]
  · have hb := step_bmLine (List.foldl step initState pre) (by simpa using hh) h2 h3
    rw [List.foldl_cons, hb, foldl_step_halted _ _ rfl, List.foldl_cons, hb, List.foldl_nil]

/-- Claim C3, amended, witness: after `\mainmatter` the marker line stops the
pass: a following section line is ignored. -/
theorem claim_C3_witness :
    texParse ([S "\\mainmatter"] ++ bmLine :: [S "\\section\x7bA\x7d"]) =
      texParse ([S "\\mainmatter"] ++ [bmLine]) :=
  claim_C3_amended [S "\\mainmatter"] [S "\\section\x7bA\x7d"] (by decide) (by decide)

/-- Claim C5: a line classified as a section marker in main matter bumps the
global counter, opens a new saying numbered with the new counter value and
titled with the stripped capture and no paragraphs, leaves the closed book
list unchanged, implicitly opens an untitled book when none is open (and
otherwise keeps the open book, closing the previous saying into it), and
leaves the buffer flushed. -/
theorem claim_C5 (st : PState) (line t : Str)
    (hh : st.halted = false)
    (htp : st.inTitlepage = false)
    (hfm : st.inFrontMatter = false)
    (hb1 : strStartsWith tpBeginPat (pyStrip line) = false)
    (hb2 : strStartsWith tpEndPat (pyStrip line) = false)
    (hb3 : strStartsWith mmPat (pyStrip line) = false)
    (hch : chapterMatch line = none)
    (hsec : sectionMatch line = some t) :
    (step st line).sayNum = st.sayNum + 1 ∧
      (step st line).curSaying = some { num := st.sayNum + 1, title := pyStrip t, paragraphs := [] } ∧
      (step st line).books = st.books ∧
      (st.curBook = none → (step st line).curBook = some { title := [], preface := [], sayings := [] }) ∧
      (∀ b, st.curBook = some b →
        (step st line).curBook = some (closeSaying b (flushInto st).curSaying)) ∧
      (step st line).buffer = [] := by
  obtain ⟨f1, f2, f3, f4, f5, f6, f7, f8, f9⟩ := flushInto_fields st
  have hstep : step st line = stepSection st (pyStrip t) := by
    simp [step, hh, htp, hfm, hb1, hb2, hb3, hch, hsec]
  rw [hstep]
  unfold stepSection
  refine ⟨by simp [f1], by simp [f1], by simp [f2], ?_, ?_, by simp [f4]⟩
  · intro hnone
    simp [f3, hnone, f1]
  · intro b hb
    simp [f3, hb, f1]

/-- Claim C5, witness: from a fresh main-matter state, `\section{Hi}` creates
saying number 1 titled `Hi` with no paragraphs and an untitled implicit book. -/
theorem claim_C5_witness :
    (step c5St (S "\\section\x7bHi\x7d")).sayNum = 1 ∧
      (step c5St (S "\\section\x7bHi\x7d")).curSaying =
        some { num := 1, title := S "Hi", paragraphs := [] } ∧
      (step c5St (S "\\section\x7bHi\x7d")).curBook =
        some { title := [], preface := [], sayings := [] } ∧
      (step c5St (S "\\section\x7bHi\x7d")).buffer = [] := by
  have h := claim_C5 c5St (S "\\section\x7bHi\x7d") (S "Hi") (by decide) (by decide) (by decide)
    (by decide) (by decide) (by decide) (by decide) (by decide)
  exact ⟨h.1, h.2.1, h.2.2.2.1 rfl, h.2.2.2.2.2⟩

/-- `range'` over one more element, used for the counter invariant. -/
theorem range'_snoc (s n : Nat) : List.range' s (n + 1) = List.range' s n ++ [s + n] := by
  induction n generalizing s with
  | zero => simp [List.range'_succ]
  | succ n ih =>
    rw [List.range'_succ, ih (s + 1), List.range'_succ, ← List.cons_append]
    simp [Nat.add_assoc, Nat.add_comm 1 n]

/-- The open-saying contribution of a closed saying slot. -/
theorem optSayNums_none : optSayNums none = [] := rfl

/-- The open-saying contribution of an open saying slot. -/
theorem optSayNums_some (s : Saying) : optSayNums (some s) = [s.num] := rfl

/-- A freshly opened book carries no saying numbers. -/
theorem bookNums_new (t : Str) : bookNums { title := t, preface := [], sayings := [] } = [] := rfl

/-- Closing a saying into a book appends its number. -/
theorem bookNums_closeSaying (b : Book) (o : Option Saying) :
    bookNums (closeSaying b o) = bookNums b ++ optSayNums o := by
  cases o <;> simp [closeSaying, bookNums, optSayNums]

/-- Flushing preserves the number of the open saying. -/
theorem flushInto_optSayNums (st : PState) :
    optSayNums (flushInto st).curSaying = optSayNums st.curSaying := by
  unfold flushInto
  split
  · simp
  · split <;> simp_all [optSayNums]

/-- Flushing preserves all visible saying numbers. -/
theorem stNums_flushInto (st : PState) : stNums (flushInto st) = stNums st := by
  obtain ⟨_, f2, f3, _⟩ := flushInto_fields st
  unfold stNums
  rw [f2, f3, flushInto_optSayNums]

/-- The title-page scan only touches the captured title and subtitle. -/
theorem titlepageScan_fields (st : PState) (l : Str) :
    (titlepageScan st l).sayNum = st.sayNum ∧ (titlepageScan st l).books = st.books ∧
      (titlepageScan st l).curBook = st.curBook ∧
      (titlepageScan st l).curSaying = st.curSaying ∧
      (titlepageScan st l).buffer = st.buffer ∧
      (titlepageScan st l).inTitlepage = st.inTitlepage ∧
      (titlepageScan st l).inFrontMatter = st.inFrontMatter ∧
      (titlepageScan st l).halted = st.halted := by
  unfold titlepageScan
  repeat' split
  all_goals simp

/-- The chapter handler preserves all visible saying numbers and the counter,
and closes the open saying. -/
theorem stepChapter_inv (st : PState) (t : Str) (h2 : st.curBook = none → st.curSaying = none) :
    stNums (stepChapter st t) = stNums st ∧ (stepChapter st t).sayNum = st.sayNum ∧
      (stepChapter st t).curSaying = none := by
  obtain ⟨f1, f2, f3, _⟩ := flushInto_fields st
  cases hcb : st.curBook with
  | none =>
    have hcs := h2 hcb
    refine ⟨?_, by simp [stepChapter, f1], by simp [stepChapter]⟩
    simp [stepChapter, stNums, f2, f3, hcb, hcs, optBookNums, optSayNums, bookNums]
  | some b =>
    refine ⟨?_, by simp [stepChapter, f1], by simp [stepChapter]⟩
    simp only [stepChapter, stNums, f2, f3, hcb, optBookNums]
    simp [bookNums_new, bookNums_closeSaying, flushInto_optSayNums, optSayNums_none, optSayNums_some, List.append_assoc]

/-- The section handler appends exactly the incremented counter to the visible
saying numbers and leaves a book open. -/
theorem stepSection_inv (st : PState) (t : Str) (h2 : st.curBook = none → st.curSaying = none) :
    stNums (stepSection st t) = stNums st ++ [st.sayNum + 1] ∧
      (stepSection st t).sayNum = st.sayNum + 1 ∧
      (stepSection st t).curBook.isSome = true := by
  obtain ⟨f1, f2, f3, _⟩ := flushInto_fields st
  cases hcb : st.curBook with
  | none =>
    have hcs := h2 hcb
    refine ⟨?_, by simp [stepSection, f1], by simp [stepSection]⟩
    simp [stepSection, stNums, f1, f2, f3, hcb, hcs, optBookNums, optSayNums, bookNums]
  | some b =>
    refine ⟨?_, by simp [stepSection, f1], by simp [stepSection]⟩
    simp only [stepSection, stNums, f1, f2, f3, hcb, optBookNums]
    simp [bookNums_new, bookNums_closeSaying, flushInto_optSayNums, optSayNums_none, optSayNums_some, List.append_assoc]

/-- One loop step preserves the counter invariant: the visible saying numbers
are exactly `1, …, sayNum`, and no saying is open without a book. -/
theorem step_invC2 (st : PState) (l : Str)
    (h1 : stNums st = List.range' 1 st.sayNum)
    (h2 : st.curBook = none → st.curSaying = none) :
    stNums (step st l) = List.range' 1 (step st l).sayNum ∧
      ((step st l).curBook = none → (step st l).curSaying = none) := by
  unfold step
  split
  · exact ⟨h1, h2⟩
  split
  · exact ⟨h1, h2⟩
  split
  · exact ⟨h1, h2⟩
  split
  · obtain ⟨t1, t2, t3, t4, _⟩ := titlepageScan_fields st l
    constructor
    · show stNums (titlepageScan st l) = _
      unfold stNums
      rw [t1, t2, t3, t4]
      exact h1
    · rw [t3, t4]
      exact h2
  split
  · exact ⟨h1, h2⟩
  split
  · exact ⟨h1, h2⟩
  split
  · rename_i t _
    obtain ⟨c1, c2, c3⟩ := stepChapter_inv st (pyStrip t) h2
    exact ⟨by rw [c1, c2, h1], fun _ => c3⟩
  split
  · rename_i t _
    obtain ⟨s1, s2, s3⟩ := stepSection_inv st (pyStrip t) h2
    refine ⟨by rw [s1, s2, h1, range'_snoc]; simp [Nat.add_comm], ?_⟩
    intro hnone
    rw [hnone] at s3
    simp [Option.isSome] at s3
  split
  · exact ⟨h1, h2⟩
  split
  · exact ⟨h1, h2⟩
  split
  · exact ⟨h1, h2⟩
  · exact ⟨h1, h2⟩

/-- The counter invariant is preserved along any run of the loop. -/
theorem processLines_invC2 (ls : List Str) (st : PState)
    (h1 : stNums st = List.range' 1 st.sayNum)
    (h2 : st.curBook = none → st.curSaying = none) :
    stNums (processLines st ls) = List.range' 1 (processLines st ls).sayNum ∧
      ((processLines st ls).curBook = none → (processLines st ls).curSaying = none) := by
  induction ls generalizing st with
  | nil => exact ⟨h1, h2⟩
  | cons l rest ih =>
    have h := step_invC2 st l h1 h2
    exact ih (step st l) h.1 h.2

/-- The epilogue turns the visible saying numbers of the final state into the
document's saying numbers. -/
theorem docNums_docOf (st : PState) (h2 : st.curBook = none → st.curSaying = none) :
    docNums (docOf st) = stNums st := by
  obtain ⟨_, f2, f3, _⟩ := flushInto_fields st
  unfold docOf finalize docNums
  cases hcb : st.curBook with
  | none =>
    have hcs := h2 hcb
    simp [stNums, f2, f3, hcb, hcs, optBookNums, optSayNums_none]
  | some b =>
    simp only [f3, hcb]
    simp [stNums, f2, hcb, optBookNums, bookNums_closeSaying, flushInto_optSayNums,
      List.append_assoc]

/-- Claim C2: for every input, the saying numbers of the parsed document in
document order are exactly `1, 2, …, k` — contiguous, increasing by 1,
starting at 1 and global across Books. -/
theorem claim_C2 (ls : List Str) :
    docNums (texParse ls) = List.range' 1 (docNums (texParse ls)).length := by
  obtain ⟨h1, h2⟩ := processLines_invC2 ls initState (by decide) (fun _ => rfl)
  unfold texParse
  rw [docNums_docOf _ h2, h1, List.length_range']

/-- A saying heading starts with the h3 tag. -/
theorem sh3_h3Line (s : Saying) : strStartsWith (S "<h3") (h3Line s) = true := rfl

/-- A paragraph line never starts with the h3 tag. -/
theorem sh3_p (p : Str) : strStartsWith (S "<h3") (S "<p>" ++ p ++ S "</p>") = false := rfl

/-- The fixed head lines contain no h3 heading. -/
theorem filter_headLines (stem : Str) :
    ([S "<!DOCTYPE html>", S "<html lang=\"en\">", S "<head>",
      S "  <meta charset=\"utf-8\">",
      S "  <title>" ++ stem ++ S "</title>",
      S "  <meta name=\"viewport\" content=\"width=device-width, initial-scale=1\">",
      styleLine, S "</head>", S "<body>"].filter (fun l => strStartsWith (S "<h3") l)) = [] := rfl

/-- The closing lines contain no h3 heading. -/
theorem filter_tailLines :
    ([S "</body>", S "</html>"].filter (fun l => strStartsWith (S "<h3") l)) = [] := rfl

/-- Paragraph blocks contribute nothing to the h3 filter. -/
theorem filter_pmap (ps : List Str) :
    (ps.map (fun p => S "<p>" ++ p ++ S "</p>")).filter (fun l => strStartsWith (S "<h3") l) = [] := by
  induction ps with
  | nil => rfl
  | cons p rest ih =>
    simp only [List.map_cons, List.filter_cons, sh3_p, ih]
    simp

/-- A rendered saying contributes exactly its heading to the h3 filter. -/
theorem filter_renderSaying (s : Saying) :
    (renderSaying s).filter (fun l => strStartsWith (S "<h3") l) = [h3Line s] := by
  simp only [renderSaying, List.filter_cons, sh3_h3Line, filter_pmap]
  simp

/-- A rendered book contributes exactly its sayings' headings to the h3 filter. -/
theorem filter_renderBook (b : Book) :
    (renderBook b).filter (fun l => strStartsWith (S "<h3") l) = b.sayings.map h3Line := by
  have hs : ∀ ss : List Saying,
      ((ss.map renderSaying).flatten).filter (fun l => strStartsWith (S "<h3") l) =
        ss.map h3Line := by
    intro ss
    induction ss with
    | nil => rfl
    | cons s r ihs =>
      simp only [List.map_cons, List.flatten_cons, List.filter_append, ihs, filter_renderSaying]
      rfl
  have h2 : (if b.title.isEmpty then ([] : List Str)
      else [S "<h2>" ++ b.title ++ S "</h2>"]).filter (fun l => strStartsWith (S "<h3") l) = [] := by
    split <;> rfl
  have h3 : [S "<hr>"].filter (fun l => strStartsWith (S "<h3") l) = [] := rfl
  unfold renderBook
  rw [List.filter_append, List.filter_append, hs, h2, h3]
  simp

/-- Claim C7: the h3 heading lines of the emitted HTML are, in order, exactly
one per Saying, each of the form `<h3 id="s{n}-{slug}">{n}. {title}</h3>`. -/
theorem claim_C7 (stem : Str) (d : Document) :
    (renderHtml stem d).filter (fun l => strStartsWith (S "<h3") l) =
      (d.books.map (fun b => b.sayings)).flatten.map h3Line := by
  have hmid : ∀ bs : List Book,
      ((bs.map renderBook).flatten).filter (fun l => strStartsWith (S "<h3") l) =
        (bs.map (fun b => b.sayings)).flatten.map h3Line := by
    intro bs
    induction bs with
    | nil => rfl
    | cons b rest ih =>
      simp only [List.map_cons, List.flatten_cons, List.filter_append, ih, filter_renderBook,
        List.map_append]
  have hB : (if d.title.isEmpty then [S "<h1>" ++ stem ++ S "</h1>"]
      else [S "<h1>" ++ d.title ++ S "</h1>"]).filter (fun l => strStartsWith (S "<h3") l) = [] := by
    split <;> rfl
  have hC : (if d.subtitle.isEmpty then ([] : List Str)
      else [S "<h2>" ++ d.subtitle ++ S "</h2>"]).filter (fun l => strStartsWith (S "<h3") l) = [] := by
    split <;> rfl
  unfold renderHtml
  simp only [List.filter_append, filter_headLines, filter_tailLines, hB, hC, hmid]
  simp

/-- The title-page scan commutes with the buffer: it never reads or writes
the accumulation buffer. -/
theorem titlepageScan_buf (st : PState) (l : Str) (b : List Str) :
    titlepageScan { st with buffer := b } l = { titlepageScan st l with buffer := b } := by
  unfold titlepageScan
  by_cases hA : (strContains (S "\\Huge") l && strContains (S "textsc") l) = true <;>
    by_cases hB : (strContains (S "The 81 Sayings of") l || strContains (S "Book of Awakening") l
      || strContains (S "Suttas of the Living Buddha") l) = true <;>
    simp only [hA, hB, if_true, if_false] <;>
    cases hf : findTextsc l <;>
    cases hg : firstBraceGroup l <;>
    simp [hf, hg]

/-- The title-page scan gives buffer-independent results: scanning from two
states that differ only in the buffer yields states that differ only in the
buffer, with the open saying untouched. -/
theorem titlepageScan_buf2 (st : PState) (l : Str) (b1 b2 : List Str) :
    ({ titlepageScan { st with buffer := b1 } l with buffer := ([] : List Str) } =
        { titlepageScan { st with buffer := b2 } l with buffer := [] }) ∧
      (titlepageScan { st with buffer := b1 } l).curSaying = st.curSaying := by
  unfold titlepageScan
  by_cases hA : (strContains (S "\\Huge") l && strContains (S "textsc") l) = true <;>
    by_cases hB : (strContains (S "The 81 Sayings of") l || strContains (S "Book of Awakening") l
      || strContains (S "Suttas of the Living Buddha") l) = true <;>
    simp only [hA, hB, if_true, if_false] <;>
    cases hf : findTextsc l <;>
    cases hg : firstBraceGroup l <;>
    simp [hf, hg]

/-- Processing one line from two states that agree except for the buffer and
have no open saying: either the successors are equal outright (a flush
discarded both buffers), or they still agree except for the buffer with no
open saying. -/
theorem step_buf (l : Str) (st : PState) (b1 b2 : List Str) (hcs : st.curSaying = none) :
    ({ step { st with buffer := b1 } l with buffer := [] } =
        { step { st with buffer := b2 } l with buffer := [] } ∧
      (step { st with buffer := b1 } l).curSaying = none) ∨
      step { st with buffer := b1 } l = step { st with buffer := b2 } l := by
  unfold step
  dsimp only
  by_cases h1 : st.halted = true
  · rw [if_pos h1, if_pos h1]
    exact Or.inl ⟨by rfl, hcs⟩
  · rw [if_neg h1, if_neg h1]
    by_cases h2 : strStartsWith tpBeginPat (pyStrip l) = true
    · rw [if_pos h2, if_pos h2]
      exact Or.inl ⟨by rfl, hcs⟩
    · rw [if_neg h2, if_neg h2]
      by_cases h3 : strStartsWith tpEndPat (pyStrip l) = true
      · rw [if_pos h3, if_pos h3]
        exact Or.inl ⟨by rfl, hcs⟩
      · rw [if_neg h3, if_neg h3]
        by_cases h4 : st.inTitlepage = true
        · rw [if_pos h4, if_pos h4]
          obtain ⟨e1, e2⟩ := titlepageScan_buf2 st l b1 b2
          exact Or.inl ⟨e1, by rw [e2]; exact hcs⟩
        · rw [if_neg h4, if_neg h4]
          by_cases h5 : strStartsWith mmPat (pyStrip l) = true
          · rw [if_pos h5, if_pos h5]
            exact Or.inl ⟨by rfl, hcs⟩
          · rw [if_neg h5, if_neg h5]
            by_cases h6 : st.inFrontMatter = true
            · rw [if_pos h6, if_pos h6]
              exact Or.inl ⟨by rfl, hcs⟩
            · rw [if_neg h6, if_neg h6]
              cases hc : chapterMatch l with
              | some t =>
                simp only [hc]
                refine Or.inr ?_
                unfold stepChapter
                rw [flushInto_none { st with buffer := b1 } hcs,
                  flushInto_none { st with buffer := b2 } hcs]
              | none =>
                simp only [hc]
                cases hs : sectionMatch l with
                | some t =>
                  simp only [hs]
                  refine Or.inr ?_
                  unfold stepSection
                  rw [flushInto_none { st with buffer := b1 } hcs,
                    flushInto_none { st with buffer := b2 } hcs]
                | none =>
                  simp only [hs]
                  by_cases h7 : (pyStrip l == ornLine) = true
                  · rw [if_pos h7, if_pos h7]
                    exact Or.inl ⟨by rfl, hcs⟩
                  · rw [if_neg h7, if_neg h7]
                    by_cases h8 : strStartsWith bmPat (pyStrip l) = true
                    · rw [if_pos h8, if_pos h8]
                      exact Or.inl ⟨by rfl, hcs⟩
                    · rw [if_neg h8, if_neg h8]
                      cases hb : st.curBook with
                      | some bk =>
                        simp only [hb]
                        exact Or.inl ⟨trivial, hcs⟩
                      | none =>
                        simp only [hb]
                        exact Or.inl ⟨trivial, hcs⟩


/-- Splitting a run of the loop at an append. -/
theorem processLines_append (st : PState) (a b : List Str) :
    processLines st (a ++ b) = processLines (processLines st a) b := by
  unfold processLines
  rw [List.foldl_append]

/-- With no open saying, the final document does not depend on the buffer:
whatever was accumulated without an open saying is discarded, never rendered. -/
theorem docOf_buf (post : List Str) (st : PState) (b1 b2 : List Str)
    (hcs : st.curSaying = none) :
    docOf (processLines { st with buffer := b1 } post) =
      docOf (processLines { st with buffer := b2 } post) := by
  induction post generalizing st b1 b2 with
  | nil =>
    show docOf { st with buffer := b1 } = docOf { st with buffer := b2 }
    unfold docOf finalize
    rw [flushInto_none { st with buffer := b1 } hcs, flushInto_none { st with buffer := b2 } hcs]
  | cons l rest ih =>
    show docOf (processLines (step { st with buffer := b1 } l) rest) =
      docOf (processLines (step { st with buffer := b2 } l) rest)
    rcases step_buf l st b1 b2 hcs with ⟨heq, hcs2⟩ | heq
    · have h := ih { step { st with buffer := b1 } l with buffer := [] }
        (step { st with buffer := b1 } l).buffer (step { st with buffer := b2 } l).buffer hcs2
      refine h.trans ?_
      rw [heq]
    · rw [heq]

/-- A plain content line only (possibly) appends to the buffer: all other
state fields are untouched. -/
theorem step_plain (st : PState) (l : Str) (htp : st.inTitlepage = false)
    (hfm : st.inFrontMatter = false) (hl : isPlainLine l = true) :
    step st l = { st with buffer := (step st l).buffer } := by
  simp only [isPlainLine, Bool.and_eq_true, Bool.not_eq_true', Option.isNone_iff_eq_none] at hl
  obtain ⟨⟨⟨⟨⟨⟨g1, g2⟩, g3⟩, g4⟩, g5⟩, g6⟩, g7⟩ := hl
  have n1 : ¬(strStartsWith tpBeginPat (pyStrip l) = true) := by simp [g1]
  have n2 : ¬(strStartsWith tpEndPat (pyStrip l) = true) := by simp [g2]
  have n3 : ¬(strStartsWith mmPat (pyStrip l) = true) := by simp [g3]
  have n6 : ¬((pyStrip l == ornLine) = true) := by simp [g6]
  have n7 : ¬(strStartsWith bmPat (pyStrip l) = true) := by simp [g7]
  have ntp : ¬(st.inTitlepage = true) := by simp [htp]
  have nfm : ¬(st.inFrontMatter = true) := by simp [hfm]
  unfold step
  by_cases h1 : st.halted = true
  · rw [if_pos h1]
  · rw [if_neg h1, if_neg n1, if_neg n2, if_neg ntp, if_neg n3, if_neg nfm]
    simp only [g4, g5]
    rw [if_neg n6, if_neg n7]
    cases hb : st.curBook with
    | some bk => simp [hb]
    | none =>
      simp only [hb]
      rw [← hb]

/-- A run of plain content lines only (possibly) appends to the buffer. -/
theorem plain_run (extra : List Str) (st : PState)
    (htp : st.inTitlepage = false) (hfm : st.inFrontMatter = false)
    (hx : ∀ l ∈ extra, isPlainLine l = true) :
    processLines st extra = { st with buffer := (processLines st extra).buffer } := by
  induction extra generalizing st with
  | nil => rfl
  | cons l rest ih =>
    have hl := hx l (List.mem_cons_self l rest)
    have hsp := step_plain st l htp hfm hl
    have htp2 : (step st l).inTitlepage = false := by rw [hsp]; exact htp
    have hfm2 : (step st l).inFrontMatter = false := by rw [hsp]; exact hfm
    have h := ih (step st l) htp2 hfm2 (fun x hxm => hx x (List.mem_cons_of_mem l hxm))
    show processLines (step st l) rest = _
    rw [h]
    exact congrArg (fun s => { s with buffer := (processLines (step st l) rest).buffer }) hsp

/-- Claim C10: content lines accumulated while no Saying is open — in
particular book-preface text between a chapter marker and the first section
marker — never reach the output: inserting any run of plain content lines at
a point where no Saying is open leaves the parsed document unchanged (and
hence the rendered HTML, which is a function of the document). -/
theorem claim_C10 (pre extra post : List Str)
    (hcs : (processLines initState pre).curSaying = none)
    (htp : (processLines initState pre).inTitlepage = false)
    (hfm : (processLines initState pre).inFrontMatter = false)
    (hx : ∀ l ∈ extra, isPlainLine l = true) :
    texParse (pre ++ extra ++ post) = texParse (pre ++ post) := by
  unfold texParse
  rw [List.append_assoc pre extra post]
  rw [processLines_append initState pre (extra ++ post), processLines_append _ extra post,
    processLines_append initState pre post]
  rw [plain_run extra _ htp hfm hx]
  exact docOf_buf post (processLines initState pre) _ _ hcs

/-- Claim C10, witness: a preface line between `\chapter{B}` and `\section{T}`
is invisible in the parsed document. -/
theorem claim_C10_witness :
    texParse ([S "\\mainmatter", S "\\chapter\x7bB\x7d"] ++ [S "preface text"]
        ++ [S "\\section\x7bT\x7d", S "body"]) =
      texParse ([S "\\mainmatter", S "\\chapter\x7bB\x7d"]
        ++ [S "\\section\x7bT\x7d", S "body"]) :=
  claim_C10 [S "\\mainmatter", S "\\chapter\x7bB\x7d"] [S "preface text"]
    [S "\\section\x7bT\x7d", S "body"] (by decide) (by decide) (by decide) (by decide)

/-- A slug character's code point: lowercase letter, digit, or hyphen. -/
theorem slugChar_toNat (c : Char) (h : (isLowerAlnum c || c == '-') = true) :
    (97 ≤ c.toNat ∧ c.toNat ≤ 122) ∨ (48 ≤ c.toNat ∧ c.toNat ≤ 57) ∨ c.toNat = 45 := by
  simp only [Bool.or_eq_true] at h
  rcases h with h | h
  · simp only [isLowerAlnum, Bool.or_eq_true, Bool.and_eq_true, decide_eq_true_eq] at h
    tauto
  · right; right
    have hc : c = '-' := eq_of_beq h
    rw [hc]
    rfl

/-- Slug characters are not whitespace. -/
theorem slugChar_not_space (c : Char) (h : (isLowerAlnum c || c == '-') = true) :
    pyIsSpace c = false := by
  have hn := slugChar_toNat c h
  simp only [pyIsSpace, Bool.or_eq_false_iff, decide_eq_false_iff_not]
  omega

/-- Slug characters are fixed by lowercasing. -/
theorem slugChar_lower_fix (c : Char) (h : (isLowerAlnum c || c == '-') = true) :
    pyLower c = c := by
  have hn := slugChar_toNat c h
  unfold pyLower
  split
  · rename_i h2
    simp only [Bool.and_eq_true, decide_eq_true_eq] at h2
    omega
  · rfl

/-- Every character emitted by the non-alphanumeric squash is a slug character. -/
theorem subRuns_chars (b : Bool) (l : Str) :
    ∀ c ∈ subRuns b l, (isLowerAlnum c || c == '-') = true := by
  induction l generalizing b with
  | nil => intro c hc; cases hc
  | cons x rest ih =>
    intro c hc
    unfold subRuns at hc
    by_cases hx : isLowerAlnum x = true
    · rw [if_pos hx] at hc
      rcases List.mem_cons.mp hc with rfl | hc2
      · simp [hx]
      · exact ih false c hc2
    · rw [if_neg hx] at hc
      by_cases hb : b = true
      · rw [if_pos hb] at hc
        exact ih true c hc
      · rw [if_neg hb] at hc
        rcases List.mem_cons.mp hc with rfl | hc2
        · decide
        · exact ih true c hc2

/-- Characters survive the leading-hyphen drop. -/
theorem dropWhileH_chars (p : Char → Bool) (l : Str) : ∀ c ∈ l.dropWhile p, c ∈ l := by
  induction l with
  | nil => intro c hc; exact hc
  | cons x rest ih =>
    intro c hc
    by_cases hx : p x = true
    · simp only [List.dropWhile_cons, hx, if_true] at hc
      exact List.mem_cons_of_mem x (ih c hc)
    · simp only [List.dropWhile_cons, hx, if_false] at hc
      exact hc

/-- Characters survive the trailing-hyphen drop. -/
theorem dropTrailH_chars (l : Str) : ∀ c ∈ dropTrailH l, c ∈ l := by
  induction l with
  | nil => intro c hc; exact hc
  | cons x rest ih =>
    intro c hc
    unfold dropTrailH at hc
    cases hdt : dropTrailH rest with
    | nil =>
      rw [hdt] at hc
      by_cases hx : (x == '-') = true
      · rw [if_pos hx] at hc
        cases hc
      · rw [if_neg hx] at hc
        rcases List.mem_cons.mp hc with rfl | hc2
        · exact List.mem_cons_self _ _
        · cases hc2
    | cons y ys =>
      rw [hdt] at hc
      rcases List.mem_cons.mp hc with rfl | hc2
      · exact List.mem_cons_self c rest
      · exact List.mem_cons_of_mem x (ih c (hdt ▸ hc2))

/-- The hyphen collapse emits only characters of its input or hyphens. -/
theorem collapseH_chars (b : Bool) (l : Str)
    (hl : ∀ c ∈ l, (isLowerAlnum c || c == '-') = true) :
    ∀ c ∈ collapseH b l, (isLowerAlnum c || c == '-') = true := by
  induction l generalizing b with
  | nil => intro c hc; cases hc
  | cons x rest ih =>
    intro c hc
    have hrest : ∀ c ∈ rest, (isLowerAlnum c || c == '-') = true :=
      fun d hd => hl d (List.mem_cons_of_mem x hd)
    unfold collapseH at hc
    by_cases hx : (x == '-') = true
    · rw [if_pos hx] at hc
      by_cases hb : b = true
      · rw [if_pos hb] at hc
        exact ih true hrest c hc
      · rw [if_neg hb] at hc
        rcases List.mem_cons.mp hc with rfl | hc2
        · decide
        · exact ih true hrest c hc2
    · rw [if_neg hx] at hc
      rcases List.mem_cons.mp hc with rfl | hc2
      · exact hl c (List.mem_cons_self c rest)
      · exact ih false hrest c hc2

/-- The tail of a string with no double hyphen has no double hyphen. -/
theorem noHH_tail (c : Char) (l : Str) (h : noHH (c :: l) = true) : noHH l = true := by
  cases l with
  | nil => rfl
  | cons d rest =>
    simp only [noHH, Bool.and_eq_true] at h
    exact h.2

/-- Extending a string with no double hyphen and a safe head. -/
theorem noHH_build (c : Char) (l : Str) (hl : noHH l = true)
    (h : c = '-' → noLeadH l = true) : noHH (c :: l) = true := by
  cases l with
  | nil => rfl
  | cons d rest =>
    simp only [noHH, Bool.and_eq_true]
    refine ⟨?_, hl⟩
    by_cases hc : c = '-'
    · have hd := h hc
      simp only [noLeadH, Bool.not_eq_true'] at hd
      simp [hc, hd]
    · have : (c == '-') = false := by simp [hc]
      simp [this]

/-- After a hyphen, no double hyphen means a safe head. -/
theorem noHH_noLead (rest : Str) (h : noHH ('-' :: rest) = true) : noLeadH rest = true := by
  cases rest with
  | nil => rfl
  | cons d ds =>
    simp only [noHH, Bool.and_eq_true, Bool.not_eq_true', Bool.and_eq_false_iff] at h
    rcases h.1 with h1 | h1
    · simp at h1
    · simp [noLeadH, h1]

/-- The collapse in run mode never emits a leading hyphen. -/
theorem collapseH_true_noLead (l : Str) : noLeadH (collapseH true l) = true := by
  induction l with
  | nil => rfl
  | cons x rest ih =>
    unfold collapseH
    by_cases hx : (x == '-') = true
    · rw [if_pos hx, if_pos rfl]
      exact ih
    · rw [if_neg hx]
      simp [noLeadH, hx]

/-- The hyphen collapse leaves no double hyphen. -/
theorem collapseH_noHH (b : Bool) (l : Str) : noHH (collapseH b l) = true := by
  induction l generalizing b with
  | nil => rfl
  | cons x rest ih =>
    unfold collapseH
    by_cases hx : (x == '-') = true
    · rw [if_pos hx]
      by_cases hb : b = true
      · rw [if_pos hb]
        exact ih true
      · rw [if_neg hb]
        exact noHH_build '-' _ (ih true) (fun _ => collapseH_true_noLead rest)
    · rw [if_neg hx]
      refine noHH_build x _ (ih false) (fun hxeq => ?_)
      rw [hxeq] at hx
      simp at hx

/-- Dropping leading hyphens leaves no leading hyphen. -/
theorem dropWhileH_noLead (l : Str) : noLeadH (l.dropWhile (fun c => c == '-')) = true := by
  induction l with
  | nil => rfl
  | cons x rest ih =>
    by_cases hx : (x == '-') = true
    · simp only [List.dropWhile_cons, hx, if_true]
      exact ih
    · simp only [List.dropWhile_cons, hx, if_false]
      simp [noLeadH, hx]

/-- Dropping leading hyphens preserves the no-double-hyphen property. -/
theorem dropWhileH_noHH (l : Str) (h : noHH l = true) :
    noHH (l.dropWhile (fun c => c == '-')) = true := by
  induction l with
  | nil => exact h
  | cons x rest ih =>
    by_cases hx : (x == '-') = true
    · simp only [List.dropWhile_cons, hx, if_true]
      exact ih (noHH_tail x rest h)
    · simp only [List.dropWhile_cons, hx, if_false]
      exact h

/-- The head of the trailing-hyphen drop of a nonempty string is its head. -/
theorem dropTrailH_head (d : Char) (r : Str) (y : Char) (ys : Str)
    (h : dropTrailH (d :: r) = y :: ys) : y = d := by
  unfold dropTrailH at h
  cases hdt : dropTrailH r with
  | nil =>
    rw [hdt] at h
    by_cases hd : (d == '-') = true
    · rw [if_pos hd] at h
      simp at h
    · rw [if_neg hd] at h
      injection h with h1 _
      exact h1.symm
  | cons z zs =>
    rw [hdt] at h
    injection h with h1 _
    exact h1.symm

/-- Dropping trailing hyphens leaves no trailing hyphen. -/
theorem dropTrailH_noTrail (l : Str) : noTrailH (dropTrailH l) = true := by
  induction l with
  | nil => rfl
  | cons x rest ih =>
    unfold dropTrailH
    cases hdt : dropTrailH rest with
    | nil =>
      by_cases hx : (x == '-') = true
      · rw [if_pos hx]
        rfl
      · rw [if_neg hx]
        simp [noTrailH, hx]
    | cons y ys =>
      show noTrailH (x :: y :: ys) = true
      simp only [noTrailH]
      rw [← hdt]
      exact ih

/-- Dropping trailing hyphens preserves a hyphen-free head. -/
theorem dropTrailH_noLead (l : Str) (h : noLeadH l = true) :
    noLeadH (dropTrailH l) = true := by
  cases l with
  | nil => rfl
  | cons x rest =>
    unfold dropTrailH
    cases hdt : dropTrailH rest with
    | nil =>
      by_cases hx : (x == '-') = true
      · rw [if_pos hx]
        rfl
      · rw [if_neg hx]
        exact h
    | cons y ys => exact h

/-- Dropping trailing hyphens preserves the no-double-hyphen property. -/
theorem dropTrailH_noHH (l : Str) (h : noHH l = true) : noHH (dropTrailH l) = true := by
  induction l with
  | nil => rfl
  | cons x rest ih =>
    unfold dropTrailH
    cases hdt : dropTrailH rest with
    | nil =>
      by_cases hx : (x == '-') = true
      · rw [if_pos hx]
        rfl
      · rw [if_neg hx]
        rfl
    | cons y ys =>
      show noHH (x :: y :: ys) = true
      have hrec : noHH (y :: ys) = true := by
        rw [← hdt]
        exact ih (noHH_tail x rest h)
      refine noHH_build x (y :: ys) hrec (fun hxe => ?_)
      subst hxe
      cases rest with
      | nil => cases hdt
      | cons d r2 =>
        have hy : y = d := dropTrailH_head d r2 y ys hdt
        have hld : noLeadH (d :: r2) = true := noHH_noLead (d :: r2) h
        simp only [noLeadH] at hld ⊢
        rw [hy]
        exact hld

/-- `rstrip` is the identity on whitespace-free strings. -/
theorem pyRstrip_id (l : Str) (h : ∀ c ∈ l, pyIsSpace c = false) : pyRstrip l = l := by
  induction l with
  | nil => rfl
  | cons x rest ih =>
    have hx := h x (List.mem_cons_self _ _)
    have hr := ih (fun c hc => h c (List.mem_cons_of_mem _ hc))
    unfold pyRstrip
    rw [hr]
    cases rest with
    | nil => simp [hx]
    | cons y ys => rfl

/-- `lstrip` is the identity on whitespace-free strings. -/
theorem pyLstrip_id (l : Str) (h : ∀ c ∈ l, pyIsSpace c = false) : pyLstrip l = l := by
  cases l with
  | nil => rfl
  | cons x rest =>
    simp [pyLstrip, List.dropWhile_cons, h x (List.mem_cons_self _ _)]

/-- `strip` is the identity on whitespace-free strings. -/
theorem pyStrip_id (l : Str) (h : ∀ c ∈ l, pyIsSpace c = false) : pyStrip l = l := by
  unfold pyStrip
  rw [pyRstrip_id l h]
  exact pyLstrip_id l h

/-- Mapping a pointwise-identity function is the identity. -/
theorem map_id_of (f : Char → Char) (l : Str) (h : ∀ c ∈ l, f c = c) : l.map f = l := by
  induction l with
  | nil => rfl
  | cons x rest ih =>
    rw [List.map_cons, h x (List.mem_cons_self _ _),
      ih (fun c hc => h c (List.mem_cons_of_mem _ hc))]

/-- The non-alphanumeric squash is the identity on clean slug text. -/
theorem subRuns_id (l : Str) (b : Bool)
    (hchars : ∀ c ∈ l, (isLowerAlnum c || c == '-') = true)
    (hhh : noHH l = true)
    (hb : b = true → noLeadH l = true) : subRuns b l = l := by
  induction l generalizing b with
  | nil => rfl
  | cons x rest ih =>
    have hx := hchars x (List.mem_cons_self _ _)
    have hrest : ∀ c ∈ rest, (isLowerAlnum c || c == '-') = true :=
      fun c hc => hchars c (List.mem_cons_of_mem _ hc)
    by_cases ha : isLowerAlnum x = true
    · unfold subRuns
      rw [if_pos ha]
      rw [ih false hrest (noHH_tail x rest hhh) (fun h => Bool.noConfusion h)]
    · have hxh : (x == '-') = true := by
        simp only [Bool.or_eq_true] at hx
        exact hx.resolve_left ha
      have hxe : x = '-' := eq_of_beq hxh
      by_cases hbb : b = true
      · have hld := hb hbb
        rw [hxe] at hld
        simp [noLeadH] at hld
      · have hbf : b = false := by revert hbb; cases b <;> simp
        subst hbf
        unfold subRuns
        rw [if_neg ha, if_neg (fun h => Bool.noConfusion h)]
        subst hxe
        rw [ih true hrest (noHH_tail _ rest hhh) (fun _ => noHH_noLead rest hhh)]

/-- The hyphen collapse is the identity on strings with no double hyphen and
a safe head. -/
theorem collapseH_id (l : Str) (b : Bool) (hhh : noHH l = true)
    (hb : b = true → noLeadH l = true) : collapseH b l = l := by
  induction l generalizing b with
  | nil => rfl
  | cons x rest ih =>
    by_cases hx : (x == '-') = true
    · have hxe : x = '-' := eq_of_beq hx
      by_cases hbb : b = true
      · have hld := hb hbb
        rw [hxe] at hld
        simp [noLeadH] at hld
      · have hbf : b = false := by revert hbb; cases b <;> simp
        subst hbf
        unfold collapseH
        rw [if_pos hx, if_neg (fun h => Bool.noConfusion h)]
        subst hxe
        rw [ih true (noHH_tail _ rest hhh) (fun _ => noHH_noLead rest hhh)]
    · unfold collapseH
      rw [if_neg hx]
      rw [ih false (noHH_tail x rest hhh) (fun h => Bool.noConfusion h)]

/-- Dropping leading hyphens is the identity on hyphen-free-headed strings. -/
theorem dropWhileH_id (l : Str) (h : noLeadH l = true) :
    l.dropWhile (fun c => c == '-') = l := by
  cases l with
  | nil => rfl
  | cons x rest =>
    simp only [noLeadH, Bool.not_eq_true'] at h
    simp [List.dropWhile_cons, h]

/-- Dropping trailing hyphens is the identity on strings with no trailing
hyphen. -/
theorem dropTrailH_id (l : Str) (h : noTrailH l = true) : dropTrailH l = l := by
  induction l with
  | nil => rfl
  | cons x rest ih =>
    cases rest with
    | nil =>
      simp only [noTrailH, Bool.not_eq_true'] at h
      show (if (x == '-') = true then ([] : Str) else [x]) = [x]
      simp [h]
    | cons y ys =>
      have hr : dropTrailH (y :: ys) = y :: ys := ih (by simpa [noTrailH] using h)
      unfold dropTrailH
      rw [hr]

/-- Every slug produced by `slugify` is in slug normal form and nonempty. -/
theorem slugify_clean (t : Str) : isCleanSlug (slugify t) = true ∧ slugify t ≠ [] := by
  unfold slugify stripHyphens
  dsimp only
  set s1 := (pyStrip t).map pyLower with hs1
  set s2 := subRuns false s1 with hs2
  set s3 := dropTrailH ((collapseH false s2).dropWhile (fun c => c == '-')) with hs3
  have hch2 : ∀ c ∈ s2, (isLowerAlnum c || c == '-') = true := subRuns_chars false s1
  have hchC : ∀ c ∈ collapseH false s2, (isLowerAlnum c || c == '-') = true :=
    collapseH_chars false s2 hch2
  have hCnoHH : noHH (collapseH false s2) = true := collapseH_noHH false s2
  have hd1chars : ∀ c ∈ (collapseH false s2).dropWhile (fun c => c == '-'),
      (isLowerAlnum c || c == '-') = true :=
    fun c hc => hchC c (dropWhileH_chars _ _ c hc)
  have hd1lead := dropWhileH_noLead (collapseH false s2)
  have hd1hh := dropWhileH_noHH (collapseH false s2) hCnoHH
  have hs3chars : ∀ c ∈ s3, (isLowerAlnum c || c == '-') = true :=
    fun c hc => hd1chars c (dropTrailH_chars _ c hc)
  have hs3lead : noLeadH s3 = true := dropTrailH_noLead _ hd1lead
  have hs3hh : noHH s3 = true := dropTrailH_noHH _ hd1hh
  have hs3trail : noTrailH s3 = true := dropTrailH_noTrail _
  by_cases h0 : s3.isEmpty = true
  · rw [if_pos h0]
    exact ⟨by decide, by decide⟩
  · rw [if_neg h0]
    constructor
    · simp only [isCleanSlug, Bool.and_eq_true]
      refine ⟨⟨⟨?_, hs3hh⟩, hs3lead⟩, hs3trail⟩
      simp only [allSlugChar, List.all_eq_true]
      exact hs3chars
    · intro hnil
      rw [hnil] at h0
      exact h0 rfl

/-- `slugify` fixes every nonempty slug in normal form. -/
theorem slugify_fix (s : Str) (hc : isCleanSlug s = true) (hne : s ≠ []) :
    slugify s = s := by
  simp only [isCleanSlug, Bool.and_eq_true] at hc
  obtain ⟨⟨⟨hall, hhh⟩, hlead⟩, htrail⟩ := hc
  have hchars : ∀ c ∈ s, (isLowerAlnum c || c == '-') = true :=
    List.all_eq_true.mp hall
  have hns : ∀ c ∈ s, pyIsSpace c = false := fun c hm => slugChar_not_space c (hchars c hm)
  have hlow : ∀ c ∈ s, pyLower c = c := fun c hm => slugChar_lower_fix c (hchars c hm)
  unfold slugify stripHyphens
  dsimp only
  rw [pyStrip_id s hns, map_id_of pyLower s hlow,
    subRuns_id s false hchars hhh (fun h => Bool.noConfusion h),
    collapseH_id s false hhh (fun h => Bool.noConfusion h),
    dropWhileH_id s hlead, dropTrailH_id s htrail]
  rw [if_neg]
  simp only [List.isEmpty_iff]
  exact hne

/-- Claim C8: the slug derivation is idempotent — for every string,
`slugify (slugify x) = slugify x`. -/
theorem claim_C8 (t : Str) : slugify (slugify t) = slugify t := by
  obtain ⟨hc, hne⟩ := slugify_clean t
  exact slugify_fix (slugify t) hc hne

/-- A non-space character of a line survives `rstrip`. -/
theorem mem_pyRstrip (c : Char) (l : Str) (hm : c ∈ l) (hc : pyIsSpace c = false) :
    c ∈ pyRstrip l := by
  induction l with
  | nil => cases hm
  | cons x rest ih =>
    unfold pyRstrip
    rcases List.mem_cons.mp hm with rfl | hm2
    · cases hr : pyRstrip rest with
      | nil => simp [hc]
      | cons y ys => exact List.mem_cons_self _ _
    · have := ih hm2
      cases hr : pyRstrip rest with
      | nil =>
        rw [hr] at this
        cases this
      | cons y ys =>
        rw [hr] at this
        exact List.mem_cons_of_mem x this

/-- A non-space character of a line survives `lstrip`. -/
theorem mem_pyLstrip (c : Char) (l : Str) (hm : c ∈ l) (hc : pyIsSpace c = false) :
    c ∈ pyLstrip l := by
  induction l with
  | nil => cases hm
  | cons x rest ih =>
    by_cases hx : pyIsSpace x = true
    · simp only [pyLstrip, List.dropWhile_cons, hx, if_true]
      rcases List.mem_cons.mp hm with rfl | hm2
      · rw [hx] at hc
        cases hc
      · exact ih hm2
    · simp only [pyLstrip, List.dropWhile_cons, hx]
      simpa using hm

/-- A non-space character of a line survives `strip`. -/
theorem mem_pyStrip (c : Char) (l : Str) (hm : c ∈ l) (hc : pyIsSpace c = false) :
    c ∈ pyStrip l :=
  mem_pyLstrip c (pyRstrip l) (mem_pyRstrip c l hm hc) hc

/-- An all-space string strips to nothing. -/
theorem pyStrip_all_space (l : Str) (h : ∀ c ∈ l, pyIsSpace c = true) : pyStrip l = [] := by
  have hr : pyRstrip l = [] := by
    induction l with
    | nil => rfl
    | cons x rest ih =>
      unfold pyRstrip
      rw [ih (fun c hc => h c (List.mem_cons_of_mem _ hc))]
      simp [h x (List.mem_cons_self _ _)]
  unfold pyStrip
  rw [hr]
  rfl

/-- A nonempty strip yields a witness non-space character. -/
theorem pyStrip_ne_nil (l : Str) (h : pyStrip l ≠ []) :
    ∃ c ∈ l, pyIsSpace c = false := by
  by_contra hcon
  push_neg at hcon
  refine h (pyStrip_all_space l (fun c hc => ?_))
  have := hcon c hc
  revert this
  cases pyIsSpace c <;> simp

/-- A character of a part occurs in the separator-join of the parts. -/
theorem mem_joinWith (sep : Str) (parts : List Str) (e : Str) (c : Char)
    (he : e ∈ parts) (hc : c ∈ e) : c ∈ joinWith sep parts := by
  induction parts with
  | nil => cases he
  | cons x rest ih =>
    cases rest with
    | nil =>
      rcases List.mem_cons.mp he with rfl | h2
      · exact hc
      · cases h2
    | cons y ys =>
      rcases List.mem_cons.mp he with rfl | h2
      · show c ∈ e ++ sep ++ joinWith sep (y :: ys)
        exact List.mem_append_left _ (List.mem_append_left _ hc)
      · show c ∈ x ++ sep ++ joinWith sep (y :: ys)
        exact List.mem_append_right _ (ih h2)

/-- Joining a nonempty buffer of visibly nonempty parts gives a nonempty
paragraph. -/
theorem joinPara_ne (buff : List Str) (hne : buff ≠ [])
    (hall : ∀ e ∈ buff, pyStrip e ≠ []) : joinPara buff ≠ [] := by
  cases buff with
  | nil => exact absurd rfl hne
  | cons e rest =>
    obtain ⟨c, hcm, hcs⟩ := pyStrip_ne_nil e (hall e (List.mem_cons_self _ _))
    have hcj : c ∈ joinWith (S "<br>") (e :: rest) :=
      mem_joinWith _ _ e c (List.mem_cons_self _ _) hcm
    have : c ∈ joinPara (e :: rest) := mem_pyStrip c _ hcj hcs
    exact List.ne_nil_of_mem this

/-- Every paragraph produced by the flush loop from benign lines is nonempty. -/
theorem flushGo_ne (lines : List Str) (buff : List Str)
    (hl : ∀ l ∈ lines, goodLine l = true)
    (hb : ∀ e ∈ buff, pyStrip e ≠ []) : ∀ p ∈ flushGo buff lines, p ≠ [] := by
  induction lines generalizing buff with
  | nil =>
    intro p hp
    unfold flushGo at hp
    by_cases h0 : buff.isEmpty = true
    · rw [if_pos h0] at hp
      cases hp
    · rw [if_neg h0] at hp
      rcases List.mem_cons.mp hp with rfl | h2
      · exact joinPara_ne buff (by simpa [List.isEmpty_iff] using h0) hb
      · cases h2
  | cons ln rest ih =>
    intro p hp
    have hlr : ∀ l ∈ rest, goodLine l = true :=
      fun l hm => hl l (List.mem_cons_of_mem _ hm)
    have hgood := hl ln (List.mem_cons_self _ _)
    unfold flushGo at hp
    by_cases hbl : (pyRstrip ln).isEmpty = true
    · rw [if_pos hbl] at hp
      by_cases h0 : buff.isEmpty = true
      · rw [if_pos h0] at hp
        exact ih [] hlr (fun e he => absurd he (List.not_mem_nil e)) p hp
      · rw [if_neg h0] at hp
        rcases List.mem_cons.mp hp with rfl | h2
        · exact joinPara_ne buff (by simpa [List.isEmpty_iff] using h0) hb
        · exact ih [] hlr (fun e he => absurd he (List.not_mem_nil e)) p h2
    · rw [if_neg hbl] at hp
      have hcl : pyStrip (cleanLine ln) ≠ [] := by
        simp only [goodLine, Bool.or_eq_true, Bool.not_eq_true'] at hgood
        rcases hgood with h | h
        · exact absurd h hbl
        · simpa [List.isEmpty_iff] using h
      by_cases horn : (pyStrip (cleanLine ln) == ornLine) = true
      · rw [if_pos horn] at hp
        exact ih buff hlr hb p hp
      · rw [if_neg horn] at hp
        refine ih (buff ++ [cleanLine ln]) hlr (fun e he => ?_) p hp
        rcases List.mem_append.mp he with h2 | h2
        · exact hb e h2
        · rcases List.mem_cons.mp h2 with rfl | h3
          · exact hcl
          · cases h3

/-- Closing a harmless saying into a harmless book keeps it harmless. -/
theorem bookOK_close (b : Book) (o : Option Saying) (hb : bookOK b)
    (ho : ∀ s, o = some s → sayOK s) : bookOK (closeSaying b o) := by
  cases o with
  | none => exact hb
  | some s =>
    intro s2 hs2
    rcases List.mem_append.mp hs2 with h2 | h2
    · exact hb s2 h2
    · rcases List.mem_cons.mp h2 with rfl | h3
      · exact ho s2 rfl
      · cases h3

/-- Flushing preserves the no-empty-paragraph invariant. -/
theorem flushInto_inv4 (st : PState) (h : stInv4 st) : stInv4 (flushInto st) := by
  obtain ⟨h1, h2, h3, h4⟩ := h
  unfold flushInto
  split
  · exact ⟨h1, h2, h3, fun l hl => absurd hl (List.not_mem_nil l)⟩
  · split
    · exact ⟨h1, h2, h3, fun l hl => absurd hl (List.not_mem_nil l)⟩
    · rename_i s hs
      refine ⟨h1, h2, ?_, fun l hl => absurd hl (List.not_mem_nil l)⟩
      intro s2 hs2
      injection hs2 with he
      subst he
      intro hmem
      exact flushGo_ne st.buffer [] h4 (fun e he => absurd he (List.not_mem_nil e)) [] hmem rfl

/-- The chapter handler preserves the no-empty-paragraph invariant. -/
theorem stepChapter_inv4 (st : PState) (t : Str) (h : stInv4 st) :
    stInv4 (stepChapter st t) := by
  obtain ⟨f1, f2, f3, f4⟩ := flushInto_inv4 st h
  unfold stepChapter
  cases hcb : (flushInto st).curBook with
  | none =>
    simp only [hcb]
    refine ⟨f1, ?_, ?_, f4⟩
    · intro b hb
      injection hb with he
      subst he
      intro s hs
      cases hs
    · intro s hs
      cases hs
  | some b =>
    simp only [hcb]
    refine ⟨?_, ?_, ?_, f4⟩
    · intro b2 hb2
      rcases List.mem_append.mp hb2 with h2 | h2
      · exact f1 b2 h2
      · rcases List.mem_cons.mp h2 with rfl | h3
        · exact bookOK_close b _ (f2 b hcb) f3
        · cases h3
    · intro b2 hb2
      injection hb2 with he
      subst he
      intro s hs
      cases hs
    · intro s hs
      cases hs

/-- The section handler preserves the no-empty-paragraph invariant. -/
theorem stepSection_inv4 (st : PState) (t : Str) (h : stInv4 st) :
    stInv4 (stepSection st t) := by
  obtain ⟨f1, f2, f3, f4⟩ := flushInto_inv4 st h
  unfold stepSection
  cases hcb : (flushInto st).curBook with
  | none =>
    simp only [hcb]
    refine ⟨f1, ?_, ?_, f4⟩
    · intro b hb
      injection hb with he
      subst he
      intro s hs
      cases hs
    · intro s hs
      injection hs with he
      subst he
      intro hmem
      cases hmem
  | some b =>
    simp only [hcb]
    refine ⟨f1, ?_, ?_, f4⟩
    · intro b2 hb2
      injection hb2 with he
      subst he
      exact bookOK_close b _ (f2 b hcb) f3
    · intro s hs
      injection hs with he
      subst he
      intro hmem
      cases hmem

/-- One loop step preserves the no-empty-paragraph invariant when the line is
benign. -/
theorem step_inv4 (st : PState) (l : Str) (hg : goodLine l = true) (h : stInv4 st) :
    stInv4 (step st l) := by
  unfold step
  split
  · exact h
  split
  · exact h
  split
  · exact h
  split
  · obtain ⟨t1, t2, t3, t4, t5, _⟩ := titlepageScan_fields st l
    obtain ⟨h1, h2, h3, h4⟩ := h
    refine ⟨?_, ?_, ?_, ?_⟩
    · rw [t2]; exact h1
    · rw [t3]; exact h2
    · rw [t4]; exact h3
    · rw [t5]; exact h4
  split
  · exact h
  split
  · exact h
  split
  · rename_i t _
    exact stepChapter_inv4 st (pyStrip t) h
  split
  · rename_i t _
    exact stepSection_inv4 st (pyStrip t) h
  split
  · exact h
  split
  · exact h
  split
  · obtain ⟨h1, h2, h3, h4⟩ := h
    refine ⟨h1, h2, h3, ?_⟩
    intro x hx
    rcases List.mem_append.mp hx with h2x | h2x
    · exact h4 x h2x
    · rcases List.mem_cons.mp h2x with rfl | h3x
      · exact hg
      · cases h3x
  · exact h

/-- The invariant holds along any run over benign lines. -/
theorem processLines_inv4 (ls : List Str) (st : PState)
    (hg : ∀ l ∈ ls, goodLine l = true) (h : stInv4 st) : stInv4 (processLines st ls) := by
  induction ls generalizing st with
  | nil => exact h
  | cons l rest ih =>
    exact ih (step st l)
      (fun x hx => hg x (List.mem_cons_of_mem l hx))
      (step_inv4 st l (hg l (List.mem_cons_self _ _)) h)

/-- The final document of an invariant-satisfying state has no empty
paragraph. -/
theorem docOf_noEmpty (st : PState) (h : stInv4 st) :
    ([] : Str) ∉ allParas (docOf st) := by
  obtain ⟨f1, f2, f3, _⟩ := flushInto_inv4 st h
  unfold docOf finalize allParas
  cases hcb : (flushInto st).curBook with
  | none =>
    simp only [hcb]
    intro hmem
    obtain ⟨pl, hpl, hin⟩ := List.mem_flatten.mp hmem
    obtain ⟨s, hs, rfl⟩ := List.mem_map.mp hpl
    obtain ⟨bs, hbs, hsin⟩ := List.mem_flatten.mp hs
    obtain ⟨b, hb, rfl⟩ := List.mem_map.mp hbs
    exact f1 b hb s hsin hin
  | some b =>
    simp only [hcb]
    intro hmem
    obtain ⟨pl, hpl, hin⟩ := List.mem_flatten.mp hmem
    obtain ⟨s, hs, rfl⟩ := List.mem_map.mp hpl
    obtain ⟨bs, hbs, hsin⟩ := List.mem_flatten.mp hs
    obtain ⟨b2, hb2, rfl⟩ := List.mem_map.mp hbs
    rcases List.mem_append.mp hb2 with h2 | h2
    · exact f1 b2 h2 s hsin hin
    · rcases List.mem_cons.mp h2 with rfl | h3
      · exact bookOK_close b _ (f2 b hcb) f3 s hsin hin
      · cases h3

/-- Claim C4, amended: as long as no accumulated non-blank line reduces to a
whitespace-only string after the trailing `\\` strip and quote normalisation,
no Saying of the parsed document contains an empty paragraph; blank lines
terminate paragraphs and consecutive blank lines add nothing. -/
theorem claim_C4_amended (ls : List Str) (h : ∀ l ∈ ls, goodLine l = true) :
    ([] : Str) ∉ allParas (texParse ls) := by
  refine docOf_noEmpty _ (processLines_inv4 ls initState h ?_)
  refine ⟨fun b hb => absurd hb (List.not_mem_nil b), fun b hb => Option.noConfusion hb,
    fun s hs => Option.noConfusion hs, fun l hl => absurd hl (List.not_mem_nil l)⟩

/-- Claim C4, amended, witness: the worked example has only benign lines and
indeed no empty paragraph. -/
theorem claim_C4_witness : ([] : Str) ∉ allParas (texParse c1Input) :=
  claim_C4_amended c1Input (by decide)
